import Mathlib

/-!
Shallow embedding of the togo todo-list manager.

The Go sources embedded here:
- internal/todo/todo.go : the Todo item, Stats, and the Service operations
  (Add, GetByID, Complete, Incomplete, Delete, GetStats, loadTodos).
- internal/storage (JSON repository) : Save and Load over a JSON file.

Modelling conventions:
- time.Time instants are abstracted as Int (an abstract clock value); time.Now()
  becomes an explicit now argument.
- The repository's Save outcome inside a Service operation is an explicit
  saveOk : Bool argument (true = repo.Save returned nil), since the repository
  is an interface the service only observes through that error value.
- Go errors are embedded as inductive error kinds matching the distinct
  fmt.Errorf sites.
- encoding/json is modelled at the level of a JSON syntax tree: MarshalIndent
  produces a tree, Unmarshal interprets one; the concrete text layer
  (tokenising bytes into a tree, RFC3339 rendering of time.Time) is the Go
  standard library, abstracted here. A file on disk is either absent or holds
  data that is empty, a parseable JSON tree, unparseable garbage, or is
  unreadable.
-/

namespace Togo

/-- internal/todo/todo.go: the Todo struct. `CompletedAt *time.Time` is an
optional instant; instants are modelled as Int. -/
structure Todo where
  id : Int
  description : String
  completed : Bool
  createdAt : Int
  completedAt : Option Int
deriving Repr, DecidableEq

/-- The distinct error kinds the service produces (one per fmt.Errorf site in
todo.go, plus the wrapped save failure). -/
inductive TodoError where
  | invalidInput
  | notFound (id : Int)
  | alreadyCompleted (id : Int)
  | alreadyIncomplete (id : Int)
  | persistenceFailed
deriving Repr, DecidableEq

/-- internal/todo/todo.go: the Stats struct. -/
structure Stats where
  total : Nat
  completed : Nat
  pending : Nat
deriving Repr, DecidableEq

/-- internal/todo/todo.go: Stats.CompletionRate. The Go function computes in
float64; the arithmetic is modelled exactly over ℚ. -/
def Stats.completionRate (s : Stats) : ℚ :=
  if s.total = 0 then 0
  else (s.completed : ℚ) / (s.total : ℚ) * 100

/-- internal/todo/todo.go: the Service state (the repository reference is
replaced by explicit saveOk / load-result arguments on the operations). -/
structure Service where
  todos : List Todo
  nextID : Int
deriving Repr, DecidableEq

/-- One iteration of the nextID loop in Service.loadTodos: a todo whose ID is
at least the running nextID bumps it to ID + 1. -/
def bumpNextID (nid : Int) (t : Todo) : Int :=
  if t.id ≥ nid then t.id + 1 else nid

/-- internal/todo/todo.go: the nextID loop of Service.loadTodos.
Starting from the constructor's nextID = 1, every todo with ID >= nextID
bumps nextID to ID + 1. -/
def loadNextID (todos : List Todo) : Int :=
  todos.foldl bumpNextID 1

/-- internal/todo/todo.go: NewService + loadTodos. A load error leaves the
freshly constructed empty state (fail-open); a successful load installs the
loaded todos and runs the nextID loop. -/
def newService (loadResult : Except Unit (List Todo)) : Service :=
  match loadResult with
  | .error _ => { todos := [], nextID := 1 }
  | .ok todos => { todos := todos, nextID := loadNextID todos }

/-- internal/todo/todo.go: Service.Add. Empty description is rejected before
anything is touched; otherwise the item is appended and nextID incremented
before save is attempted, and a save failure is reported without rolling the
append back. -/
def Service.add (s : Service) (description : String) (now : Int)
    (saveOk : Bool) : Except TodoError Todo × Service :=
  if description = "" then (.error .invalidInput, s)
  else
    let todo : Todo :=
      { id := s.nextID, description := description, completed := false,
        createdAt := now, completedAt := none }
    let s1 : Service := { s with todos := s.todos ++ [todo],
                                 nextID := s.nextID + 1 }
    if saveOk then (.ok todo, s1) else (.error .persistenceFailed, s1)

/-- internal/todo/todo.go: Service.GetByID — first todo whose ID matches. -/
def Service.getByID (s : Service) (id : Int) : Option Todo :=
  s.todos.find? (fun t => t.id == id)

/-- In-place mutation through the pointer GetByID returns: rewrite the first
todo whose ID matches, leave the rest untouched. -/
def updateByID (f : Todo → Todo) : List Todo → Int → List Todo
  | [], _ => []
  | t :: ts, id => if t.id = id then f t :: ts else t :: updateByID f ts id

/-- internal/todo/todo.go: Service.Complete. -/
def Service.complete (s : Service) (id now : Int) (saveOk : Bool) :
    Option TodoError × Service :=
  match s.getByID id with
  | none => (some (.notFound id), s)
  | some t =>
    if t.completed then (some (.alreadyCompleted id), s)
    else
      let ts := updateByID
        (fun u => { u with completed := true, completedAt := some now })
        s.todos id
      ((if saveOk then none else some .persistenceFailed), { s with todos := ts })

/-- internal/todo/todo.go: Service.Incomplete. -/
def Service.incomplete (s : Service) (id : Int) (saveOk : Bool) :
    Option TodoError × Service :=
  match s.getByID id with
  | none => (some (.notFound id), s)
  | some t =>
    if t.completed then
      let ts := updateByID
        (fun u => { u with completed := false, completedAt := none })
        s.todos id
      ((if saveOk then none else some .persistenceFailed), { s with todos := ts })
    else (some (.alreadyIncomplete id), s)

/-- The slice surgery of Service.Delete: remove the first todo whose ID
matches, or report that none matched. -/
def removeByID : List Todo → Int → Option (List Todo)
  | [], _ => none
  | t :: ts, id =>
    if t.id = id then some ts else (removeByID ts id).map (fun r => t :: r)

/-- internal/todo/todo.go: Service.Delete. -/
def Service.delete (s : Service) (id : Int) (saveOk : Bool) :
    Option TodoError × Service :=
  match removeByID s.todos id with
  | none => (some (.notFound id), s)
  | some ts =>
    ((if saveOk then none else some .persistenceFailed), { s with todos := ts })

/-- One iteration of the GetStats loop: a completed todo increments Completed,
a pending one increments Pending. -/
def statStep (st : Stats) (t : Todo) : Stats :=
  if t.completed then { st with completed := st.completed + 1 }
  else { st with pending := st.pending + 1 }

/-- internal/todo/todo.go: Service.GetStats — Total is set to the length and
the loop increments Completed or Pending per item. -/
def Service.getStats (s : Service) : Stats :=
  s.todos.foldl statStep
    { total := s.todos.length, completed := 0, pending := 0 }

/-- Driver for a sequence of Add calls (saves succeeding), collecting the
items the successful calls return. -/
def runAdds : Service → List (String × Int) → List Todo × Service
  | s, [] => ([], s)
  | s, p :: rest =>
    match s.add p.1 p.2 true with
    | (.ok t, s1) =>
      let r := runAdds s1 rest
      (t :: r.1, r.2)
    | (.error _, s1) => runAdds s1 rest

/-- The per-item invariant of the spec data model: a pending item has no
completion timestamp, a completed item has one. -/
def Todo.invariantOK (t : Todo) : Bool :=
  if t.completed then t.completedAt.isSome else t.completedAt == none

/-! ## The JSON storage backend -/

/-- A JSON syntax tree. The time constructor stands for the RFC3339 string
encoding/json produces for a time.Time value, with the instant abstract. -/
inductive Json where
  | null
  | bool (b : Bool)
  | num (n : Int)
  | str (s : String)
  | time (t : Int)
  | arr (elems : List Json)
  | obj (fields : List (String × Json))
deriving Repr

/-- json.Marshal of one Todo under its struct tags: id, description,
completed, created_at always present; completed_at carries omitempty, so it
is omitted entirely when the pointer is nil. -/
def encodeTodo (t : Todo) : Json :=
  .obj ([("id", .num t.id), ("description", .str t.description),
         ("completed", .bool t.completed), ("created_at", .time t.createdAt)] ++
        (match t.completedAt with
         | none => []
         | some c => [("completed_at", .time c)]))

/-- json.Marshal of the todo slice. -/
def encodeTodos (ts : List Todo) : Json :=
  .arr (ts.map encodeTodo)

/-- Field lookup in a JSON object. -/
def lookupField (fields : List (String × Json)) (key : String) : Option Json :=
  (fields.find? (fun p => p.1 == key)).map (fun p => p.2)

/-- Unmarshal of an int field: absent or null leaves the zero value 0, a
number is taken, anything else is a type error. -/
def decodeIntField (fields : List (String × Json)) (key : String) :
    Option Int :=
  match lookupField fields key with
  | none => some 0
  | some .null => some 0
  | some (.num n) => some n
  | some _ => none

/-- Unmarshal of a string field: absent or null leaves the zero value. -/
def decodeStringField (fields : List (String × Json)) (key : String) :
    Option String :=
  match lookupField fields key with
  | none => some ""
  | some .null => some ""
  | some (.str v) => some v
  | some _ => none

/-- Unmarshal of a bool field: absent or null leaves the zero value. -/
def decodeBoolField (fields : List (String × Json)) (key : String) :
    Option Bool :=
  match lookupField fields key with
  | none => some false
  | some .null => some false
  | some (.bool v) => some v
  | some _ => none

/-- Unmarshal of a time.Time field: absent or null leaves the zero instant. -/
def decodeTimeField (fields : List (String × Json)) (key : String) :
    Option Int :=
  match lookupField fields key with
  | none => some 0
  | some .null => some 0
  | some (.time v) => some v
  | some _ => none

/-- Unmarshal of a *time.Time field: absent leaves nil, null sets nil. -/
def decodeOptTimeField (fields : List (String × Json)) (key : String) :
    Option (Option Int) :=
  match lookupField fields key with
  | none => some none
  | some .null => some none
  | some (.time v) => some (some v)
  | some _ => none

/-- json.Unmarshal of one Todo object. -/
def decodeTodo : Json → Option Todo
  | .obj fields => do
    let id ← decodeIntField fields "id"
    let description ← decodeStringField fields "description"
    let completed ← decodeBoolField fields "completed"
    let createdAt ← decodeTimeField fields "created_at"
    let completedAt ← decodeOptTimeField fields "completed_at"
    some { id := id, description := description, completed := completed,
           createdAt := createdAt, completedAt := completedAt }
  | _ => none

/-- json.Unmarshal into a []Todo: a JSON array is decoded elementwise, the
literal null leaves the nil slice, anything else is a shape error. -/
def decodeTodos : Json → Option (List Todo)
  | .arr elems => elems.mapM decodeTodo
  | .null => some []
  | _ => none

/-- What the backing file can hold, as Load distinguishes the cases: the file
is absent, present but zero bytes, present with content that parses into a
JSON tree, present with unparseable bytes, or present but unreadable. -/
inductive FileData where
  | empty
  | json (j : Json)
  | garbage
  | unreadable
deriving Repr

/-- Load's error kinds: the unmarshal failure and the read failure. -/
inductive StorageError where
  | corruptData
  | ioError
deriving Repr, DecidableEq

namespace JSONRepository

/-- internal/storage: JSONRepository.Load. A missing file and an empty file
both give the empty slice; a read failure is an I/O error; content that does
not unmarshal into []Todo is a corrupt-data error. -/
def load : Option FileData → Except StorageError (List Todo)
  | none => .ok []
  | some .empty => .ok []
  | some .unreadable => .error .ioError
  | some .garbage => .error .corruptData
  | some (.json j) =>
    match decodeTodos j with
    | some ts => .ok ts
    | none => .error .corruptData

/-- internal/storage: JSONRepository.Save. A successful write replaces the
whole file with the marshalled slice; a failed write reports an I/O error and
leaves the previous contents. -/
def save (_prev : Option FileData) (todos : List Todo) (writeOk : Bool) :
    Except StorageError (Option FileData) :=
  if writeOk then .ok (some (.json (encodeTodos todos)))
  else .error .ioError

end JSONRepository

/-! ## Storage lemmas -/

/-- Unmarshalling inverts marshalling on a single item. -/
lemma decodeTodo_encodeTodo (t : Todo) : decodeTodo (encodeTodo t) = some t := by
  rcases t with ⟨id, d, c, ca, co⟩
  cases co <;> rfl

/-- Unmarshalling inverts marshalling on a whole slice. -/
lemma decodeTodos_encodeTodos (ts : List Todo) :
    decodeTodos (encodeTodos ts) = some ts := by
  induction ts with
  | nil => rfl
  | cons t ts ih =>
    simp only [encodeTodos, decodeTodos, List.map_cons, List.mapM_cons,
      decodeTodo_encodeTodo] at *
    rw [ih]
    rfl

/-- C3: persisting a Collection then reloading it yields an equal Collection —
a successful Save writes the marshalled slice, and Load parses it back to the
same items (identifiers, descriptions, flags, timestamps, order). -/
theorem save_load_roundtrip (prev : Option FileData) (todos : List Todo) :
    JSONRepository.save prev todos true = .ok (some (.json (encodeTodos todos))) ∧
    JSONRepository.load (some (.json (encodeTodos todos))) = .ok todos := by
  refine ⟨rfl, ?_⟩
  simp [JSONRepository.load, decodeTodos_encodeTodos]

/-- C7: Load on a missing file returns the empty Collection and no error;
Load on unparseable bytes, or on a JSON tree that does not have the shape of
a todo slice, returns the corrupt-data error. -/
theorem load_missing_empty_and_corrupt :
    JSONRepository.load none = .ok [] ∧
    JSONRepository.load (some .garbage) = .error .corruptData ∧
    (∀ j, decodeTodos j = none →
      JSONRepository.load (some (.json j)) = .error .corruptData) := by
  refine ⟨rfl, rfl, fun j hj => ?_⟩
  simp [JSONRepository.load, hj]

/-- Witness for C7: the number 5 is a JSON tree that is not a todo slice, and
Load reports it as corrupt data. -/
theorem load_missing_empty_and_corrupt_witness :
    JSONRepository.load (some (.json (.num 5))) = .error .corruptData :=
  load_missing_empty_and_corrupt.2.2 (.num 5) rfl

/-- C10: a file that exists but is zero bytes long loads as the empty
Collection, not as a parse error. -/
theorem load_zero_byte_file :
    JSONRepository.load (some .empty) = .ok [] := rfl

/-! ## Service lemmas -/

/-- C5: Add with an empty description fails with the invalid-input error and
returns the state unchanged, whatever the repository would have answered
(save is never reached). -/
theorem add_empty_description_rejected (s : Service) (now : Int)
    (saveOk : Bool) :
    s.add "" now saveOk = (.error .invalidInput, s) := by
  simp [Service.add]

/-- GetByID scans left to right, so it skips a prefix without the wanted ID
and returns the first match. -/
lemma find?_id_append (l₁ : List Todo) (t : Todo) (l₂ : List Todo) (id : Int)
    (ht : t.id = id) (h : ∀ u ∈ l₁, u.id ≠ id) :
    (l₁ ++ t :: l₂).find? (fun u => u.id == id) = some t := by
  induction l₁ with
  | nil => simp [List.find?_cons, ht]
  | cons a as ih =>
    have ha : a.id ≠ id := h a (by simp)
    rw [List.cons_append, List.find?_cons_of_neg _ (by simpa using ha)]
    exact ih (fun u hu => h u (by simp [hu]))

/-- When no element carries the wanted ID, GetByID finds nothing. -/
lemma find?_id_eq_none (l : List Todo) (id : Int) (h : ∀ u ∈ l, u.id ≠ id) :
    l.find? (fun u => u.id == id) = none := by
  rw [List.find?_eq_none]
  intro u hu
  simpa using h u hu

/-- updateByID rewrites the first element carrying the ID and nothing else. -/
lemma updateByID_append (f : Todo → Todo) (l₁ : List Todo) (t : Todo)
    (l₂ : List Todo) (id : Int) (ht : t.id = id) (h : ∀ u ∈ l₁, u.id ≠ id) :
    updateByID f (l₁ ++ t :: l₂) id = l₁ ++ f t :: l₂ := by
  induction l₁ with
  | nil => simp [updateByID, ht]
  | cons a as ih =>
    have ha : a.id ≠ id := h a (by simp)
    simp only [List.cons_append, updateByID, if_neg ha, List.append_eq]
    rw [ih (fun u hu => h u (by simp [hu]))]

/-- removeByID drops the first element carrying the ID and keeps the rest in
order. -/
lemma removeByID_append (l₁ : List Todo) (t : Todo) (l₂ : List Todo)
    (id : Int) (ht : t.id = id) (h : ∀ u ∈ l₁, u.id ≠ id) :
    removeByID (l₁ ++ t :: l₂) id = some (l₁ ++ l₂) := by
  induction l₁ with
  | nil => simp [removeByID, ht]
  | cons a as ih =>
    have ha : a.id ≠ id := h a (by simp)
    simp only [List.cons_append, removeByID, if_neg ha, List.append_eq]
    rw [ih (fun u hu => h u (by simp [hu]))]
    rfl

/-- When no element carries the wanted ID, removeByID reports no match. -/
lemma removeByID_eq_none (l : List Todo) (id : Int)
    (h : ∀ u ∈ l, u.id ≠ id) :
    removeByID l id = none := by
  induction l with
  | nil => rfl
  | cons a as ih =>
    have ha : a.id ≠ id := h a (by simp)
    simp only [removeByID, if_neg ha]
    rw [ih (fun u hu => h u (by simp [hu]))]
    rfl

/-- Splitting a collection with unique identifiers around one element: no
other element, before or after, carries its identifier. -/
lemma nodup_split (l₁ : List Todo) (t : Todo) (l₂ : List Todo)
    (h : ((l₁ ++ t :: l₂).map Todo.id).Nodup) :
    (∀ u ∈ l₁, u.id ≠ t.id) ∧ (∀ u ∈ l₂, u.id ≠ t.id) := by
  have h1 : (l₁.map Todo.id ++ t.id :: l₂.map Todo.id).Nodup := by
    simpa using h
  rw [List.nodup_middle] at h1
  have h2 : t.id ∉ l₁.map Todo.id ++ l₂.map Todo.id := (List.nodup_cons.mp h1).1
  simp only [List.mem_append, List.mem_map, not_or, not_exists] at h2
  constructor
  · intro u hu he
    exact h2.1 u ⟨hu, he⟩
  · intro u hu he
    exact h2.2 u ⟨hu, he⟩

/-- C2: over a collection with unique identifiers, Complete(id) fails with
NotFound when no item carries id and with AlreadyInState when the item
carrying id is already completed, and otherwise flips exactly that item to
completed with completion timestamp now and hands the new collection to save;
Incomplete(id) is the mirror image, clearing flag and timestamp. -/
theorem complete_incomplete_transitions (s : Service) (id now : Int)
    (saveOk : Bool) (hnd : (s.todos.map Todo.id).Nodup) :
    ((∀ t ∈ s.todos, t.id ≠ id) →
      s.complete id now saveOk = (some (.notFound id), s) ∧
      s.incomplete id saveOk = (some (.notFound id), s)) ∧
    (∀ l₁ t l₂, s.todos = l₁ ++ t :: l₂ → t.id = id →
      (t.completed = true →
        s.complete id now saveOk = (some (.alreadyCompleted id), s) ∧
        s.incomplete id saveOk =
          ((if saveOk then none else some .persistenceFailed),
            { s with todos :=
                l₁ ++ { t with completed := false, completedAt := none } :: l₂ })) ∧
      (t.completed = false →
        s.incomplete id saveOk = (some (.alreadyIncomplete id), s) ∧
        s.complete id now saveOk =
          ((if saveOk then none else some .persistenceFailed),
            { s with todos :=
                l₁ ++ { t with completed := true, completedAt := some now } :: l₂ }))) := by
  constructor
  · intro hnone
    have hf : s.todos.find? (fun u => u.id == id) = none :=
      find?_id_eq_none _ _ hnone
    constructor
    · simp [Service.complete, Service.getByID, hf]
    · simp [Service.incomplete, Service.getByID, hf]
  · intro l₁ t l₂ hsplit ht
    have hsp := nodup_split l₁ t l₂ (hsplit ▸ hnd)
    have h₁ : ∀ u ∈ l₁, u.id ≠ id := fun u hu => ht ▸ hsp.1 u hu
    have hf : s.todos.find? (fun u => u.id == id) = some t := by
      rw [hsplit]
      exact find?_id_append l₁ t l₂ id ht h₁
    constructor
    · intro hc
      constructor
      · simp [Service.complete, Service.getByID, hf, hc]
      · have hupd := updateByID_append
          (fun u => { u with completed := false, completedAt := none })
          l₁ t l₂ id ht h₁
        simp only [Service.incomplete, Service.getByID, hf, hc, if_true]
        rw [hsplit, hupd]
    · intro hc
      constructor
      · simp [Service.incomplete, Service.getByID, hf, hc]
      · have hupd := updateByID_append
          (fun u => { u with completed := true, completedAt := some now })
          l₁ t l₂ id ht h₁
        simp only [Service.complete, Service.getByID, hf, hc, if_false]
        rw [hsplit, hupd]
        simp

/-- Witness for C2: on the one-item collection [id 1, pending], Complete(2)
fails with NotFound and Complete(1) marks the item completed at time 9. -/
theorem complete_incomplete_transitions_witness :
    (({ todos := [{ id := 1, description := "a", completed := false,
                    createdAt := 0, completedAt := none }],
        nextID := 2 } : Service).complete 2 9 true =
      (some (.notFound 2),
        { todos := [{ id := 1, description := "a", completed := false,
                      createdAt := 0, completedAt := none }], nextID := 2 })) ∧
    (({ todos := [{ id := 1, description := "a", completed := false,
                    createdAt := 0, completedAt := none }],
        nextID := 2 } : Service).complete 1 9 true =
      (none,
        { todos := [{ id := 1, description := "a", completed := true,
                      createdAt := 0, completedAt := some 9 }], nextID := 2 })) := by
  constructor
  · exact ((complete_incomplete_transitions
      { todos := [{ id := 1, description := "a", completed := false,
                    createdAt := 0, completedAt := none }], nextID := 2 }
      2 9 true (by decide)).1 (by decide)).1
  · exact (((complete_incomplete_transitions
      { todos := [{ id := 1, description := "a", completed := false,
                    createdAt := 0, completedAt := none }], nextID := 2 }
      1 9 true (by decide)).2
      [] { id := 1, description := "a", completed := false,
           createdAt := 0, completedAt := none } [] rfl rfl).2 rfl).2

/-- C6: over a collection with unique identifiers, Delete(id) on a present
identifier removes exactly that one item, keeping the rest in order, and a
second Delete(id) afterwards fails with NotFound; Delete on an absent
identifier fails with NotFound and changes nothing. -/
theorem delete_removes_exactly_one (s : Service) (id : Int) (saveOk : Bool)
    (hnd : (s.todos.map Todo.id).Nodup) :
    ((∀ t ∈ s.todos, t.id ≠ id) →
      s.delete id saveOk = (some (.notFound id), s)) ∧
    (∀ l₁ t l₂, s.todos = l₁ ++ t :: l₂ → t.id = id →
      s.delete id saveOk =
        ((if saveOk then none else some .persistenceFailed),
          { s with todos := l₁ ++ l₂ }) ∧
      (∀ saveOk2,
        Service.delete { s with todos := l₁ ++ l₂ } id saveOk2 =
          (some (.notFound id), { s with todos := l₁ ++ l₂ }))) := by
  constructor
  · intro hnone
    have hr : removeByID s.todos id = none := removeByID_eq_none _ _ hnone
    simp [Service.delete, hr]
  · intro l₁ t l₂ hsplit ht
    have hsp := nodup_split l₁ t l₂ (hsplit ▸ hnd)
    have h₁ : ∀ u ∈ l₁, u.id ≠ id := fun u hu => ht ▸ hsp.1 u hu
    have h₂ : ∀ u ∈ l₂, u.id ≠ id := fun u hu => ht ▸ hsp.2 u hu
    have hr : removeByID s.todos id = some (l₁ ++ l₂) := by
      rw [hsplit]
      exact removeByID_append l₁ t l₂ id ht h₁
    constructor
    · simp [Service.delete, hr]
    · intro saveOk2
      have hnone : ∀ u ∈ l₁ ++ l₂, u.id ≠ id := by
        intro u hu
        rcases List.mem_append.mp hu with h | h
        · exact h₁ u h
        · exact h₂ u h
      have hr2 : removeByID (l₁ ++ l₂) id = none :=
        removeByID_eq_none _ _ hnone
      simp [Service.delete, hr2]

/-- Witness for C6: deleting id 1 from the two-item collection [1, 2] leaves
[2], and deleting 1 again fails with NotFound. -/
theorem delete_removes_exactly_one_witness :
    (({ todos := [{ id := 1, description := "a", completed := false,
                    createdAt := 0, completedAt := none },
                  { id := 2, description := "b", completed := false,
                    createdAt := 1, completedAt := none }],
        nextID := 3 } : Service).delete 1 true =
      (none,
        { todos := [{ id := 2, description := "b", completed := false,
                      createdAt := 1, completedAt := none }], nextID := 3 })) ∧
    (({ todos := [{ id := 2, description := "b", completed := false,
                    createdAt := 1, completedAt := none }],
        nextID := 3 } : Service).delete 1 true =
      (some (.notFound 1),
        { todos := [{ id := 2, description := "b", completed := false,
                      createdAt := 1, completedAt := none }], nextID := 3 })) := by
  have h := (delete_removes_exactly_one
    { todos := [{ id := 1, description := "a", completed := false,
                  createdAt := 0, completedAt := none },
                { id := 2, description := "b", completed := false,
                  createdAt := 1, completedAt := none }],
      nextID := 3 } 1 true (by decide)).2
    [] { id := 1, description := "a", completed := false,
         createdAt := 0, completedAt := none }
    [{ id := 2, description := "b", completed := false,
       createdAt := 1, completedAt := none }] rfl rfl
  exact ⟨h.1, h.2 true⟩

/-- The GetStats loop leaves Total alone and adds one per completed item to
Completed and one per pending item to Pending. -/
lemma foldl_statStep (ts : List Todo) (tot a b : Nat) :
    ts.foldl statStep { total := tot, completed := a, pending := b } =
      { total := tot, completed := a + ts.countP (fun t => t.completed),
        pending := b + ts.countP (fun t => !t.completed) } := by
  induction ts generalizing a b with
  | nil => simp
  | cons t ts ih =>
    rw [List.foldl_cons]
    by_cases hc : t.completed = true
    · rw [show statStep { total := tot, completed := a, pending := b } t =
          { total := tot, completed := a + 1, pending := b } from by
        simp [statStep, hc]]
      rw [ih]
      simp only [List.countP_cons, hc, Stats.mk.injEq]
      refine ⟨trivial, by simp; try omega, by simp; try omega⟩
    · rw [show statStep { total := tot, completed := a, pending := b } t =
          { total := tot, completed := a, pending := b + 1 } from by
        simp [statStep, hc]]
      rw [ih]
      simp only [List.countP_cons, hc, Stats.mk.injEq]
      refine ⟨trivial, by simp; try omega, by simp; try omega⟩

/-- C9: GetStats counts Total as the number of items, Completed and Pending
as the items with flag true resp. false, so Total = Completed + Pending, and
CompletionRate is 0 at Total = 0 and Completed/Total times 100 otherwise. -/
theorem getStats_counts (s : Service) :
    s.getStats.total = s.todos.length ∧
    s.getStats.completed = s.todos.countP (fun t => t.completed) ∧
    s.getStats.pending = s.todos.countP (fun t => !t.completed) ∧
    s.getStats.total = s.getStats.completed + s.getStats.pending ∧
    (s.getStats.total = 0 → s.getStats.completionRate = 0) ∧
    (s.getStats.total ≠ 0 →
      s.getStats.completionRate =
        (s.getStats.completed : ℚ) / (s.getStats.total : ℚ) * 100) := by
  have h : s.getStats =
      { total := s.todos.length,
        completed := s.todos.countP (fun t => t.completed),
        pending := s.todos.countP (fun t => !t.completed) } := by
    rw [Service.getStats, foldl_statStep]
    simp
  refine ⟨by rw [h], by rw [h], by rw [h], ?_, ?_, ?_⟩
  · rw [h]
    simpa using List.length_eq_countP_add_countP
      (fun (t : Todo) => t.completed) s.todos
  · intro h0
    rw [Stats.completionRate, if_pos h0]
  · intro h0
    rw [Stats.completionRate, if_neg h0]

/-- Witness for C9: over the two-item collection with one completed item the
rate is 50, and over the empty collection it is 0. -/
theorem getStats_counts_witness :
    ({ todos := [], nextID := 1 } : Service).getStats.completionRate = 0 ∧
    ({ todos := [{ id := 1, description := "a", completed := true,
                   createdAt := 0, completedAt := some 2 },
                 { id := 2, description := "b", completed := false,
                   createdAt := 1, completedAt := none }],
       nextID := 3 } : Service).getStats.completionRate = 50 := by
  constructor
  · exact (getStats_counts { todos := [], nextID := 1 }).2.2.2.2.1 (by decide)
  · rw [(getStats_counts _).2.2.2.2.2 (by decide)]
    norm_num [Service.getStats, foldl_statStep, statStep]

/-- Every element of an updateByID result is an original element or the image
of one under the rewrite. -/
lemma mem_updateByID (f : Todo → Todo) (ts : List Todo) (id : Int) (u : Todo)
    (hu : u ∈ updateByID f ts id) : u ∈ ts ∨ ∃ t ∈ ts, u = f t := by
  induction ts with
  | nil => simp [updateByID] at hu
  | cons a as ih =>
    by_cases ha : a.id = id
    · simp only [updateByID, if_pos ha, List.mem_cons] at hu
      rcases hu with rfl | hu
      · exact Or.inr ⟨a, by simp, rfl⟩
      · exact Or.inl (by simp [hu])
    · simp only [updateByID, if_neg ha, List.mem_cons] at hu
      rcases hu with rfl | hu
      · exact Or.inl (by simp)
      · rcases ih hu with h | ⟨t, ht, he⟩
        · exact Or.inl (by simp [h])
        · exact Or.inr ⟨t, by simp [ht], he⟩

/-- Every element surviving removeByID was in the original list. -/
lemma mem_of_mem_removeByID (ts : List Todo) (id : Int) (rs : List Todo)
    (hr : removeByID ts id = some rs) (u : Todo) (hu : u ∈ rs) : u ∈ ts := by
  induction ts generalizing rs with
  | nil => simp [removeByID] at hr
  | cons a as ih =>
    by_cases ha : a.id = id
    · simp only [removeByID, if_pos ha, Option.some.injEq] at hr
      subst hr
      exact List.mem_cons_of_mem a hu
    · simp only [removeByID, if_neg ha] at hr
      cases hrec : removeByID as id with
      | none => rw [hrec] at hr; simp at hr
      | some rs0 =>
        rw [hrec] at hr
        simp only [Option.map_some', Option.some.injEq] at hr
        subst hr
        rcases List.mem_cons.mp hu with rfl | hu
        · simp
        · exact List.mem_cons_of_mem a (ih rs0 hrec hu)

/-- C4: the pending-iff-no-timestamp invariant holds for every item Add
creates and is preserved by Add, Complete, Incomplete and Delete: a
collection all of whose items satisfy it still does after any of them. -/
theorem invariant_preserved (s : Service)
    (hinv : ∀ t ∈ s.todos, t.invariantOK = true) :
    (∀ d now saveOk t, (s.add d now saveOk).1 = .ok t →
      t.invariantOK = true) ∧
    (∀ d now saveOk, ∀ u ∈ (s.add d now saveOk).2.todos,
      u.invariantOK = true) ∧
    (∀ id now saveOk, ∀ u ∈ (s.complete id now saveOk).2.todos,
      u.invariantOK = true) ∧
    (∀ id saveOk, ∀ u ∈ (s.incomplete id saveOk).2.todos,
      u.invariantOK = true) ∧
    (∀ id saveOk, ∀ u ∈ (s.delete id saveOk).2.todos,
      u.invariantOK = true) := by
  refine ⟨?_, ?_, ?_, ?_, ?_⟩
  · intro d now saveOk t ht
    by_cases hd : d = ""
    · simp [Service.add, hd] at ht
    · cases saveOk
      · simp [Service.add, hd] at ht
      · simp only [Service.add, if_neg hd, if_pos rfl] at ht
        cases ht
        rfl
  · intro d now saveOk u hu
    by_cases hd : d = ""
    · simp only [Service.add, if_pos hd] at hu
      exact hinv u hu
    · have hu2 : u ∈ s.todos ++
          [{ id := s.nextID, description := d, completed := false,
             createdAt := now, completedAt := none }] := by
        cases saveOk <;> simpa [Service.add, hd] using hu
      rcases List.mem_append.mp hu2 with h | h
      · exact hinv u h
      · rw [List.mem_singleton.mp h]
        rfl
  · intro id now saveOk u hu
    cases hf : s.getByID id with
    | none =>
      simp only [Service.complete, hf] at hu
      exact hinv u hu
    | some t =>
      by_cases hc : t.completed
      · simp only [Service.complete, hf, if_pos hc] at hu
        exact hinv u hu
      · simp only [Service.complete, hf, if_neg hc] at hu
        rcases mem_updateByID _ _ _ u hu with h | ⟨v, hv, he⟩
        · exact hinv u h
        · rw [he]
          simp [Todo.invariantOK]
  · intro id saveOk u hu
    cases hf : s.getByID id with
    | none =>
      simp only [Service.incomplete, hf] at hu
      exact hinv u hu
    | some t =>
      by_cases hc : t.completed
      · simp only [Service.incomplete, hf, if_pos hc] at hu
        rcases mem_updateByID _ _ _ u hu with h | ⟨v, hv, he⟩
        · exact hinv u h
        · rw [he]
          simp [Todo.invariantOK]
      · simp only [Service.incomplete, hf, if_neg hc] at hu
        exact hinv u hu
  · intro id saveOk u hu
    cases hr : removeByID s.todos id with
    | none =>
      simp only [Service.delete, hr] at hu
      exact hinv u hu
    | some rs =>
      simp only [Service.delete, hr] at hu
      exact hinv u (mem_of_mem_removeByID _ _ _ hr u hu)

/-- Witness for C4: after completing item 2 of a collection with one
completed and one pending item, the item now carrying flag true and
timestamp 9 satisfies the invariant. -/
theorem invariant_preserved_witness :
    Todo.invariantOK { id := 2, description := "b", completed := true,
                       createdAt := 1, completedAt := some 9 } = true :=
  (invariant_preserved
    { todos := [{ id := 1, description := "a", completed := true,
                  createdAt := 0, completedAt := some 2 },
                { id := 2, description := "b", completed := false,
                  createdAt := 1, completedAt := none }],
      nextID := 3 } (by decide)).2.2.1 2 9 true
    { id := 2, description := "b", completed := true,
      createdAt := 1, completedAt := some 9 } (by decide)

/-- C8: when the repository's Save fails (saveOk = false), each mutating
operation reports the persistence failure yet keeps the in-memory mutation:
Add leaves the new item appended and the counter advanced, and Complete,
Incomplete and Delete leave the collection in exactly the mutated form, so
memory diverges from the persisted state. -/
theorem save_failure_not_rolled_back (s : Service) :
    (∀ d now, d ≠ "" →
      s.add d now false =
        (.error .persistenceFailed,
          { todos := s.todos ++
              [{ id := s.nextID, description := d, completed := false,
                 createdAt := now, completedAt := none }],
            nextID := s.nextID + 1 })) ∧
    (∀ id now t, s.getByID id = some t → t.completed = false →
      s.complete id now false =
        (some .persistenceFailed,
          { s with todos := (updateByID
              (fun u => { u with completed := true, completedAt := some now })
              s.todos id) })) ∧
    (∀ id t, s.getByID id = some t → t.completed = true →
      s.incomplete id false =
        (some .persistenceFailed,
          { s with todos := (updateByID
              (fun u => { u with completed := false, completedAt := none })
              s.todos id) })) ∧
    (∀ id rs, removeByID s.todos id = some rs →
      s.delete id false =
        (some .persistenceFailed, { s with todos := rs })) := by
  refine ⟨?_, ?_, ?_, ?_⟩
  · intro d now hd
    simp [Service.add, hd]
  · intro id now t hf hc
    simp [Service.complete, hf, hc]
  · intro id t hf hc
    simp [Service.incomplete, hf, hc]
  · intro id rs hr
    simp [Service.delete, hr]

/-- Witness for C8: with a failing save, adding "x" to the one-item service
errors with the persistence failure while the item is nevertheless appended
and nextID advanced, and completing item 1 errors while the item is
nevertheless marked completed in memory. -/
theorem save_failure_not_rolled_back_witness :
    (({ todos := [{ id := 1, description := "a", completed := false,
                    createdAt := 0, completedAt := none }],
        nextID := 2 } : Service).add "x" 7 false =
      (.error .persistenceFailed,
        { todos := [{ id := 1, description := "a", completed := false,
                      createdAt := 0, completedAt := none },
                    { id := 2, description := "x", completed := false,
                      createdAt := 7, completedAt := none }],
          nextID := 3 })) ∧
    (({ todos := [{ id := 1, description := "a", completed := false,
                    createdAt := 0, completedAt := none }],
        nextID := 2 } : Service).complete 1 9 false =
      (some .persistenceFailed,
        { todos := [{ id := 1, description := "a", completed := true,
                      createdAt := 0, completedAt := some 9 }],
          nextID := 2 })) := by
  constructor
  · exact (save_failure_not_rolled_back
      { todos := [{ id := 1, description := "a", completed := false,
                    createdAt := 0, completedAt := none }],
        nextID := 2 }).1 "x" 7 (by decide)
  · exact (save_failure_not_rolled_back
      { todos := [{ id := 1, description := "a", completed := false,
                    createdAt := 0, completedAt := none }],
        nextID := 2 }).2.1 1 9
      { id := 1, description := "a", completed := false,
        createdAt := 0, completedAt := none } rfl rfl

/-- A valid Add with a succeeding save returns the item built from the
current nextID and moves to the appended state with nextID incremented. -/
lemma add_ok (s : Service) (d : String) (now : Int) (hd : d ≠ "") :
    s.add d now true =
      (.ok { id := s.nextID, description := d, completed := false,
             createdAt := now, completedAt := none },
        { todos := s.todos ++
            [{ id := s.nextID, description := d, completed := false,
               createdAt := now, completedAt := none }],
          nextID := s.nextID + 1 }) := by
  simp [Service.add, hd]

/-- Unfolding one valid step of the Add driver. -/
lemma runAdds_cons_of_ne (s : Service) (p : String × Int)
    (ps : List (String × Int)) (hd : p.1 ≠ "") :
    runAdds s (p :: ps) =
      ({ id := s.nextID, description := p.1, completed := false,
         createdAt := p.2, completedAt := none } ::
          (runAdds
            { todos := s.todos ++
                [{ id := s.nextID, description := p.1, completed := false,
                   createdAt := p.2, completedAt := none }],
              nextID := s.nextID + 1 } ps).1,
        (runAdds
          { todos := s.todos ++
              [{ id := s.nextID, description := p.1, completed := false,
                 createdAt := p.2, completedAt := none }],
            nextID := s.nextID + 1 } ps).2) := by
  rw [runAdds, add_ok s p.1 p.2 hd]

/-- Reindexing an integer arithmetic progression after peeling its head. -/
lemma range_map_add (n : Nat) (a : Int) :
    (List.range (n + 1)).map (fun (i : Nat) => a + (i : Int)) =
      a :: (List.range n).map (fun (i : Nat) => a + 1 + (i : Int)) := by
  rw [List.range_succ_eq_map, List.map_cons, List.map_map]
  simp only [Nat.cast_zero, add_zero]
  congr 1
  apply List.map_congr_left
  intro i _
  simp only [Function.comp_apply]
  push_cast
  ring

/-- Over valid descriptions, the Add driver hands out exactly the identifiers
nextID, nextID + 1, ... in order. -/
lemma runAdds_map_id (ps : List (String × Int))
    (hv : ∀ p ∈ ps, p.1 ≠ "") (s : Service) :
    (runAdds s ps).1.map Todo.id =
      (List.range ps.length).map (fun (i : Nat) => s.nextID + (i : Int)) := by
  induction ps generalizing s with
  | nil => simp [runAdds]
  | cons p ps ih =>
    have hd : p.1 ≠ "" := hv p (by simp)
    rw [runAdds_cons_of_ne s p ps hd, List.length_cons, range_map_add,
      List.map_cons]
    congr 1
    exact ih (fun q hq => hv q (by simp [hq])) _

/-- The nextID loop never goes below its starting value. -/
lemma foldl_bump_le (ts : List Todo) (a : Int) :
    a ≤ ts.foldl bumpNextID a := by
  induction ts generalizing a with
  | nil => exact le_refl a
  | cons t ts ih =>
    rw [List.foldl_cons]
    refine le_trans ?_ (ih (bumpNextID a t))
    unfold bumpNextID
    split <;> omega

/-- The nextID loop ends strictly above the identifier of every scanned
todo. -/
lemma foldl_bump_lt_of_mem (ts : List Todo) (t : Todo) :
    ∀ a : Int, t ∈ ts → t.id < ts.foldl bumpNextID a := by
  induction ts with
  | nil =>
    intro a h
    cases h
  | cons u ts ih =>
    intro a h
    rw [List.foldl_cons]
    rcases List.mem_cons.mp h with rfl | h2
    · refine lt_of_lt_of_le ?_ (foldl_bump_le ts (bumpNextID a t))
      unfold bumpNextID
      split <;> omega
    · exact ih (bumpNextID a u) h2

/-- The nextID loop ends at its starting value or one above some scanned
identifier. -/
lemma foldl_bump_eq_or (ts : List Todo) (a : Int) :
    ts.foldl bumpNextID a = a ∨
      ∃ t ∈ ts, ts.foldl bumpNextID a = t.id + 1 := by
  induction ts generalizing a with
  | nil => exact Or.inl rfl
  | cons u ts ih =>
    rw [List.foldl_cons]
    rcases ih (bumpNextID a u) with h | ⟨t, ht, he⟩
    · rw [h]
      unfold bumpNextID
      split
      · exact Or.inr ⟨u, by simp, rfl⟩
      · exact Or.inl rfl
    · exact Or.inr ⟨t, by simp [ht], he⟩

/-- C1: successive successful Adds with valid descriptions hand out strictly
increasing identifiers; over an empty (or failed) load nextID is 1 so the
first Add assigns 1; over a loaded collection with positive identifiers,
nextID is one more than the maximum loaded identifier; and every item Add
creates carries the nextID at the call, flag false and no completion
timestamp. -/
theorem add_assigns_increasing_identifiers :
    (∀ ps s, (∀ p ∈ ps, p.1 ≠ "") →
      ((runAdds s ps).1.map Todo.id).Pairwise (fun a b => a < b)) ∧
    (newService (.ok [])).nextID = 1 ∧
    (newService (.error ())).nextID = 1 ∧
    (∀ d now saveOk t s1,
      (newService (.ok [])).add d now saveOk = (.ok t, s1) → t.id = 1) ∧
    (∀ todos, todos ≠ [] → (∀ t ∈ todos, 1 ≤ t.id) →
      ∃ m ∈ todos.map Todo.id, (∀ i ∈ todos.map Todo.id, i ≤ m) ∧
        (newService (.ok todos)).nextID = m + 1) ∧
    (∀ (s : Service) (d : String) (now : Int) (saveOk : Bool) (t : Todo)
        (s1 : Service), s.add d now saveOk = (.ok t, s1) →
      t.id = s.nextID ∧ s1.nextID = s.nextID + 1 ∧
        t.completed = false ∧ t.completedAt = none) := by
  have hadd : ∀ (s : Service) d now (saveOk : Bool) t s1,
      s.add d now saveOk = (.ok t, s1) →
      t.id = s.nextID ∧ s1.nextID = s.nextID + 1 ∧
        t.completed = false ∧ t.completedAt = none := by
    intro s d now saveOk t s1 h
    by_cases hd : d = ""
    · simp [Service.add, hd] at h
    · cases saveOk
      · simp [Service.add, hd] at h
      · rw [add_ok s d now hd] at h
        simp only [Prod.mk.injEq, Except.ok.injEq] at h
        obtain ⟨h1, h2⟩ := h
        subst h1
        subst h2
        exact ⟨rfl, rfl, rfl, rfl⟩
  refine ⟨?_, rfl, rfl, ?_, ?_, hadd⟩
  · intro ps s hv
    rw [runAdds_map_id ps hv s]
    refine List.Pairwise.map _ ?_ (List.pairwise_lt_range ps.length)
    intro a b hab
    omega
  · intro d now saveOk t s1 h
    rw [(hadd _ d now saveOk t s1 h).1]
    rfl
  · intro todos hne hpos
    rcases foldl_bump_eq_or todos 1 with h1 | ⟨t, ht, he⟩
    · exfalso
      obtain ⟨t, ht⟩ := List.exists_mem_of_ne_nil todos hne
      have h2 := foldl_bump_lt_of_mem todos t 1 ht
      rw [h1] at h2
      have := hpos t ht
      omega
    · refine ⟨t.id, List.mem_map_of_mem Todo.id ht, ?_, ?_⟩
      · intro i hi
        obtain ⟨u, hu, rfl⟩ := List.mem_map.mp hi
        have h2 := foldl_bump_lt_of_mem todos u 1 hu
        rw [he] at h2
        omega
      · show loadNextID todos = t.id + 1
        rw [loadNextID, he]

/-- Witness for C1: three Adds over an empty store hand out 1 < 2 < 3 in
order, and loading the collection with identifiers 2 and 5 sets nextID to
5 + 1. -/
theorem add_assigns_increasing_identifiers_witness :
    ((runAdds (newService (.ok [])) [("a", 0), ("b", 1), ("c", 2)]).1.map
      Todo.id).Pairwise (fun a b => a < b) ∧
    (∃ m ∈ ([{ id := 2, description := "a", completed := false,
               createdAt := 0, completedAt := none },
             { id := 5, description := "b", completed := true,
               createdAt := 1, completedAt := some 3 }] : List Todo).map
        Todo.id,
      (∀ i ∈ ([{ id := 2, description := "a", completed := false,
                 createdAt := 0, completedAt := none },
               { id := 5, description := "b", completed := true,
                 createdAt := 1, completedAt := some 3 }] : List Todo).map
          Todo.id, i ≤ m) ∧
      (newService (.ok
        [{ id := 2, description := "a", completed := false,
           createdAt := 0, completedAt := none },
         { id := 5, description := "b", completed := true,
           createdAt := 1, completedAt := some 3 }])).nextID = m + 1) := by
  constructor
  · exact add_assigns_increasing_identifiers.1
      [("a", 0), ("b", 1), ("c", 2)] (newService (.ok [])) (by decide)
  · exact add_assigns_increasing_identifiers.2.2.2.2.1
      [{ id := 2, description := "a", completed := false,
         createdAt := 0, completedAt := none },
       { id := 5, description := "b", completed := true,
         createdAt := 1, completedAt := some 3 }] (by decide) (by decide)

end Togo
